import Mathlib

/-!
Shallow embedding of the Colonist Mini Explorer content script
(`dedup.js`, `state/players.js`, `state/dice.js`, `explorer.js`) and
proofs of the specification claims about it.  JavaScript strings are
modelled as Lean `String`/`List Char`; JS `Set` objects as `List String`
with membership-based insertion; JS numbers (used here only on integer
values) as `Int`/`Nat`; nullable parameters as `Option`.
-/

namespace Explorer

/-! ### Character and string helpers (JS regex/string primitives) -/

/-- Lower-case an ASCII letter, as used to model the `/i` regex flag. -/
def lowerChar (c : Char) : Char :=
  if 'A' ≤ c ∧ c ≤ 'Z' then Char.ofNat (c.toNat + 32) else c

/-- JS regex word character `\w` = `[A-Za-z0-9_]`. -/
def wordCharB (c : Char) : Bool :=
  c.isAlpha || c.isDigit || c = '_'

/-- Whitespace as split by `/\s+/` (the characters that occur in chat lines). -/
def isSpaceB (c : Char) : Bool :=
  c = ' ' || c = '\t' || c = '\n' || c = '\r'

/-- Case-insensitive test that `pat` begins the list `cs`. -/
def matchesCI : List Char → List Char → Bool
  | [], _ => true
  | _ :: _, [] => false
  | p :: ps, c :: cs => (lowerChar p = lowerChar c) && matchesCI ps cs

/-- Case-insensitive substring test (JS `/pat/i.test(s)` for a literal `pat`). -/
def containsCI (pat : List Char) : List Char → Bool
  | [] => matchesCI pat []
  | c :: cs => matchesCI pat (c :: cs) || containsCI pat cs

/-- Occurrence of `pat` delimited by word boundaries on both sides
(JS `/\bpat\b/i.test(s)`); `prev` is the character before the scan position. -/
def hasWordPat (pat : List Char) : List Char → Option Char → Bool
  | [], _ => false
  | c :: cs, prev =>
    ((match prev with | none => true | some q => !wordCharB q)
      && matchesCI pat (c :: cs)
      && (match (List.drop pat.length (c :: cs)).head? with
          | none => true
          | some q => !wordCharB q))
    || hasWordPat pat cs (some c)

/-- First whitespace-delimited token of a line: `lineText.split(/\s+/)[0]`. -/
def firstToken (s : String) : String :=
  String.mk (s.data.takeWhile (fun c => !isSpaceB c))

/-- Model of `parseInt` on a non-empty run of decimal digits. -/
def digitsToNat (ds : List Char) : Nat :=
  ds.foldl (fun acc c => acc * 10 + (c.toNat - '0'.toNat)) 0

/-- JS `String.prototype.split(sep)` for a single-character separator. -/
def splitOnChar (sep : Char) : List Char → List (List Char)
  | [] => [[]]
  | c :: cs =>
    if c = sep then [] :: splitOnChar sep cs
    else
      match splitOnChar sep cs with
      | p :: ps => (c :: p) :: ps
      | [] => [[c]]

/-- Model of `src.split('/').pop()`: the part of `cs` after the last `/`. -/
def lastSeg (cs : List Char) : List Char :=
  ((cs.reverse.takeWhile (fun c => c ≠ '/'))).reverse

/-! ### `dedup.js` — signature memory and the contextual duplicate filter -/

/-- The two module-level `Set`s of `dedup.js`:
`processedLineSignatures` and `processedAdjacentPairs`. -/
structure DedupState where
  sigs : List String
  pairs : List String
  deriving Repr, DecidableEq

/-- Model of `Set.prototype.add`: insert a string if not already present. -/
def setAdd (l : List String) (s : String) : List String :=
  if l.contains s then l else l ++ [s]

/-- Empty signature memory (module load state). -/
def emptyDedup : DedupState := ⟨[], []⟩

/-- Model of `isContextualDuplicate(currentSig, prevSig)` from `dedup.js`.
`prevSig = none` models a `null`/absent argument; JS falsiness also
treats an empty string as absent, which the `p = ""` branch mirrors. -/
def isContextualDuplicate (st : DedupState) (currentSig : String)
    (prevSig : Option String) : Bool :=
  if !st.sigs.contains currentSig then false
  else
    match prevSig with
    | none => true
    | some p =>
      if p = "" then true
      else if !st.pairs.contains (p ++ ">>" ++ currentSig) then false
      else true

/-- Model of `markContext(currentSig, prevSig)` from `dedup.js`: record the signature,
and the adjacency key when a (truthy) previous signature exists. -/
def markContext (st : DedupState) (currentSig : String)
    (prevSig : Option String) : DedupState :=
  { sigs := setAdd st.sigs currentSig
    pairs :=
      match prevSig with
      | none => st.pairs
      | some p => if p = "" then st.pairs else setAdd st.pairs (p ++ ">>" ++ currentSig) }

/-- Model of `clearSignatures()` from `dedup.js`: empty both sets. -/
def clearSignatures (_st : DedupState) : DedupState := ⟨[], []⟩

/-! ### `canonicalizeBasename` (`dedup.js`)

The source tests `/^([^.]+?)(?:\.[0-9a-f]{6,})+\.([a-z0-9]+)$/i` against the
basename.  Since `[^.]+?` cannot cross a dot and the alternatives are
anchored, the regex matches exactly when the dot-separated segments are:
a non-empty head, one or more hex runs of length ≥ 6, and a non-empty
alphanumeric extension; on a match it returns `head ++ "." ++ ext`.
Otherwise the source splits on `.` and, when more than two parts result,
returns `first ++ "." ++ last`; otherwise the name is returned unchanged. -/

/-- Hex digit, case-insensitive (regex class `[0-9a-f]` under `/i`). -/
def isHexCharB (c : Char) : Bool :=
  c.isDigit || ('a' ≤ c && c ≤ 'f') || ('A' ≤ c && c ≤ 'F')

/-- Alphanumeric, case-insensitive (regex class `[a-z0-9]` under `/i`). -/
def isAlnumB (c : Char) : Bool :=
  c.isDigit || ('a' ≤ c && c ≤ 'z') || ('A' ≤ c && c ≤ 'Z')

/-- A cache-bust hash segment: `[0-9a-f]{6,}` filling the whole segment. -/
def isHexSeg (s : List Char) : Bool :=
  decide (6 ≤ s.length) && s.all isHexCharB

/-- Segments after the first hash run: further hash runs then the extension. -/
def hashTail : List (List Char) → Bool
  | [] => false
  | [ext] => decide (ext ≠ []) && ext.all isAlnumB
  | seg :: rest => isHexSeg seg && hashTail rest

/-- Whether the hash-pattern regex matches the dot-separated segments. -/
def canonMatch : List (List Char) → Bool
  | s0 :: seg :: rest => decide (s0 ≠ []) && isHexSeg seg && hashTail rest
  | _ => false

/-- Model of `first ++ "." ++ last` over the segment list. -/
def joinFirstLast (parts : List (List Char)) (basename : String) : String :=
  match parts with
  | s0 :: rest@(_ :: _) => String.mk (s0 ++ '.' :: rest.getLastD [])
  | _ => basename

/-- Model of `canonicalizeBasename(basename)` from `dedup.js`. -/
def canonicalizeBasename (basename : String) : String :=
  let parts := splitOnChar '.' basename.data
  if canonMatch parts then joinFirstLast parts basename
  else if 2 < parts.length then joinFirstLast parts basename
  else basename

/-! ### `state/players.js` — per-player resource records -/

/-- A resources argument (`resources`/`costs` object): a count per resource
kind, absent keys reading as `0` (JS `resources[key] || 0`). -/
structure ResMap where
  wood : Int
  brick : Int
  sheep : Int
  wheat : Int
  ore : Int
  deriving Repr, DecidableEq

/-- A player record: a count per resource kind plus the running `total`. -/
structure PlayerRec where
  wood : Int
  brick : Int
  sheep : Int
  wheat : Int
  ore : Int
  total : Int
  deriving Repr, DecidableEq

/-- The all-zero record installed by `ensurePlayer` on first reference. -/
def zeroRec : PlayerRec := ⟨0, 0, 0, 0, 0, 0⟩

/-- The empty resources map. -/
def zeroRes : ResMap := ⟨0, 0, 0, 0, 0⟩

/-- The body of `addResources` on one record: the `RESOURCE_KEYS` loop
unrolled (wood, brick, sheep, wheat, ore), each step guarded by `if (n)`. -/
def addRes (p : PlayerRec) (r : ResMap) : PlayerRec :=
  let p := if r.wood ≠ 0 then { p with wood := p.wood + r.wood, total := p.total + r.wood } else p
  let p := if r.brick ≠ 0 then { p with brick := p.brick + r.brick, total := p.total + r.brick } else p
  let p := if r.sheep ≠ 0 then { p with sheep := p.sheep + r.sheep, total := p.total + r.sheep } else p
  let p := if r.wheat ≠ 0 then { p with wheat := p.wheat + r.wheat, total := p.total + r.wheat } else p
  let p := if r.ore ≠ 0 then { p with ore := p.ore + r.ore, total := p.total + r.ore } else p
  p

/-- Amount actually removed for one key in the `spendResources` loop:
`0` when `!want` skips the key, else `min(have, want)` when positive
(the `if (remove > 0)` guard), else `0`. -/
def removedAmt (hv want : Int) : Int :=
  if want = 0 then 0
  else if 0 < min hv want then min hv want else 0

/-- The body of `spendResources` on one record: per-key removals (the loop
unrolled over `RESOURCE_KEYS`), the accumulated `totalRemoved`, the final
`if (totalRemoved) p.total = Math.max(0, p.total - totalRemoved)`, and the
returned `spent` map (keys never removed stay absent, i.e. `0`). -/
def spendRes (p : PlayerRec) (c : ResMap) : PlayerRec × ResMap :=
  let rw := removedAmt p.wood c.wood
  let rb := removedAmt p.brick c.brick
  let rs := removedAmt p.sheep c.sheep
  let rh := removedAmt p.wheat c.wheat
  let ro := removedAmt p.ore c.ore
  let totalRemoved := rw + rb + rs + rh + ro
  let p' : PlayerRec :=
    { wood := p.wood - rw
      brick := p.brick - rb
      sheep := p.sheep - rs
      wheat := p.wheat - rh
      ore := p.ore - ro
      total := if totalRemoved ≠ 0 then max 0 (p.total - totalRemoved) else p.total }
  (p', ⟨rw, rb, rs, rh, ro⟩)

/-- The module-level `players` map, as an association list in insertion order. -/
abbrev PlayersMap := List (String × PlayerRec)

/-- Read a player's record (`Map.prototype.get`), defaulting to the zero
record that `ensurePlayer` would install. -/
def getPlayer : PlayersMap → String → PlayerRec
  | [], _ => zeroRec
  | (k, v) :: rest, name => if k = name then v else getPlayer rest name

/-- Model of `players.set(name, r)` given that `ensurePlayer` appends missing keys:
update in place when present, append otherwise. -/
def setPlayer : List (String × PlayerRec) → String → PlayerRec → List (String × PlayerRec)
  | [], n, r => [(n, r)]
  | (k, v) :: rest, n, r =>
    if k = n then (n, r) :: rest else (k, v) :: setPlayer rest n r

/-- Model of `addResources(name, resources)` at the map level. -/
def addResources (ps : PlayersMap) (name : String) (r : ResMap) : PlayersMap :=
  setPlayer ps name (addRes (getPlayer ps name) r)

/-- Model of `spendResources(name, costs)` at the map level; also returns the
`spent` map. -/
def spendResources (ps : PlayersMap) (name : String) (c : ResMap) :
    PlayersMap × ResMap :=
  let r := spendRes (getPlayer ps name) c
  (setPlayer ps name r.1, r.2)

/-- Model of `snapshot()`: the rows of the player map. -/
def snapshot (ps : PlayersMap) : List (String × PlayerRec) := ps

/-- Model of `clearPlayers()`. -/
def clearPlayers (_ps : PlayersMap) : PlayersMap := []

/-! ### `state/dice.js` — the dice histogram -/

/-- Model of `_counts`: bucket contents by sum; missing keys read as `0`. -/
abbrev DiceCounts := Int → Nat

/-- All buckets start at zero. -/
def initialDice : DiceCounts := fun _ => 0

/-- Model of `recordDice(sum)`: increment the bucket only when `2 <= sum <= 12`. -/
def recordDice (c : DiceCounts) (sum : Int) : DiceCounts :=
  if 2 ≤ sum ∧ sum ≤ 12 then
    fun k => if k = sum then c k + 1 else c k
  else c

/-- Model of `clearDice()`: reset buckets 2..12 to zero. -/
def clearDice (c : DiceCounts) : DiceCounts :=
  fun k => if 2 ≤ k ∧ k ≤ 12 then 0 else c k

/-! ### `explorer.js` — events, parsers, registry

A candidate line is modelled by its extracted text and the list of resolved
image `src` URLs of its node (the only node data the parsers consult).
Events carry exactly the fields `applyEvent` consumes; the `rawText`/`node`
diagnostic fields of the source events are not modelled. -/

/-- The typed events produced by the concrete parsers. -/
inductive Event where
  | diceRoll (diceSum : Nat)
  | startingResources (player : String) (resources : ResMap)
  | got (player : String) (resources : ResMap)
  | build (player : String) (items : List String)
  deriving Repr, DecidableEq

/-- Model of `countResourceImages(container)`: per-kind icon counts by testing each
image `src` against the `IMAGE_HINTS` substring patterns. -/
def countResourceImages (imgs : List String) : ResMap :=
  imgs.foldl
    (fun counts src =>
      let cs := src.data
      let counts := if containsCI "card_lumber".data cs then { counts with wood := counts.wood + 1 } else counts
      let counts := if containsCI "card_brick".data cs then { counts with brick := counts.brick + 1 } else counts
      let counts := if containsCI "card_wool".data cs then { counts with sheep := counts.sheep + 1 } else counts
      let counts := if containsCI "card_grain".data cs then { counts with wheat := counts.wheat + 1 } else counts
      if containsCI "card_ore".data cs then { counts with ore := counts.ore + 1 } else counts)
    zeroRes

/-- Model of `RESOURCE_KEYS.some(k => resources[k] > 0)`. -/
def anyResource (r : ResMap) : Bool :=
  (0 < r.wood) || (0 < r.brick) || (0 < r.sheep) || (0 < r.wheat) || (0 < r.ore)

/-- First match of `/dice_(\d+)/i` starting exactly at `cs`, if any. -/
def diceNumAt (cs : List Char) : Option Nat :=
  if matchesCI "dice_".data cs then
    let rest := cs.drop 5
    let ds := rest.takeWhile Char.isDigit
    if ds = [] then none else some (digitsToNat ds)
  else none

/-- Leftmost match of `/dice_(\d+)/i` anywhere in the string. -/
def findDiceNum : List Char → Option Nat
  | [] => none
  | c :: cs =>
    match diceNumAt (c :: cs) with
    | some n => some n
    | none => findDiceNum cs

/-- Model of `getDiceSum(node)`: sum of all per-image die values, `null` when no
image carries one. -/
def getDiceSum (imgs : List String) : Option Nat :=
  let vals := imgs.filterMap (fun s => findDiceNum s.data)
  match vals with
  | [] => none
  | _ => some (vals.foldl (· + ·) 0)

/-- One placed-item pattern `/^pre[^\.]+\.[a-z0-9]+\.svg/i` applied to a
filename: the prefix, a non-empty dot-free run, a dot, a non-empty
alphanumeric run, then `.svg`. -/
def itemMatch (pre : List Char) (file : List Char) : Bool :=
  if matchesCI pre file then
    let r1 := file.drop pre.length
    let a := r1.takeWhile (fun c => c ≠ '.')
    decide (a ≠ []) &&
      (match r1.drop a.length with
       | '.' :: r2 =>
         let b := r2.takeWhile isAlnumB
         decide (b ≠ []) && matchesCI ".svg".data (r2.drop b.length)
       | _ => false)
  else false

/-- The loop body of `getPlacedItems`: classify one image filename into
road/settlement/city, skipping `icon_bot` files, collecting into a `Set`
(insertion-ordered, duplicates ignored). -/
def placedStep (items : List String) (src : String) : List String :=
  let file := lastSeg src.data
  if containsCI "icon_bot".data file then items
  else
    let items := if itemMatch "road_".data file then setAdd items "road" else items
    let items := if itemMatch "settlement_".data file then setAdd items "settlement" else items
    if itemMatch "city_".data file then setAdd items "city" else items

/-- Model of `getPlacedItems(node)` (single-file build version). -/
def getPlacedItems (imgs : List String) : List String :=
  imgs.foldl placedStep []

/-- Model of `parseDiceRollEvent(lineText, node)`. -/
def parseDiceRollEvent (lineText : String) (imgs : List String) : Option Event :=
  if !hasWordPat "rolled".data lineText.data none then none
  else
    match getDiceSum imgs with
    | none => none
    | some s => some (.diceRoll s)

/-- Model of `parseStartingResourcesEvent(lineText, node)`. -/
def parseStartingResourcesEvent (lineText : String) (imgs : List String) : Option Event :=
  if !containsCI "received starting resources".data lineText.data then none
  else
    let playerName := firstToken lineText
    if playerName = "" then none
    else
      let resources := countResourceImages imgs
      if !anyResource resources then none
      else some (.startingResources playerName resources)

/-- Model of `parseGotEvent(lineText, node)`. -/
def parseGotEvent (lineText : String) (imgs : List String) : Option Event :=
  if !hasWordPat "got".data lineText.data none then none
  else
    let playerName := firstToken lineText
    if playerName = "" then none
    else
      let resources := countResourceImages imgs
      if !anyResource resources then none
      else some (.got playerName resources)

/-- Model of `parseBuildEvent(lineText, node)` (always emits once text and name
match, even with an empty item list). -/
def parseBuildEvent (lineText : String) (imgs : List String) : Option Event :=
  if !hasWordPat "built a".data lineText.data none then none
  else
    let playerName := firstToken lineText
    if playerName = "" then none
    else some (.build playerName (getPlacedItems imgs))

/-- A registered parser as seen by the dispatch loop: it may throw
(`Except.error`), decline (`Except.ok none`) or match (`Except.ok (some e)`). -/
abbrev ParserFn := String → List String → Except String (Option Event)

/-- The `try`/`catch` dispatch loop of `parseLine`: a throwing parser is
treated as declining and the loop continues; the first non-null result wins;
otherwise `null`. -/
def runParsers : List ParserFn → String → List String → Option Event
  | [], _, _ => none
  | p :: ps, t, imgs =>
    match p t imgs with
    | .error _ => runParsers ps t imgs
    | .ok (some e) => some e
    | .ok none => runParsers ps t imgs

/-- A total parser lifted into the dispatch type (never throws). -/
def liftParser (f : String → List String → Option Event) : ParserFn :=
  fun t imgs => .ok (f t imgs)

/-- The `eventParsers` registry, in registration order. -/
def eventParsers : List ParserFn :=
  [liftParser parseDiceRollEvent,
   liftParser parseStartingResourcesEvent,
   liftParser parseGotEvent,
   liftParser parseBuildEvent]

/-- Model of `parseLine(lineText, node)`. -/
def parseLine (lineText : String) (imgs : List String) : Option Event :=
  runParsers eventParsers lineText imgs

/-! ### Aggregate state, `applyEvent`, and the debug surface -/

/-- The module-level mutable state the pipeline touches: player records,
dice histogram, and the dedup signature memory. -/
structure GlobalState where
  players : PlayersMap
  dice : DiceCounts
  dedup : DedupState

/-- Boot state: everything empty/zero. -/
def initialState : GlobalState := ⟨[], initialDice, emptyDedup⟩

/-- Fixed build costs (road / settlement / city); other items have no
cost logic. -/
def buildCost (item : String) : Option ResMap :=
  if item = "road" then some ⟨1, 1, 0, 0, 0⟩
  else if item = "settlement" then some ⟨1, 1, 1, 1, 0⟩
  else if item = "city" then some ⟨0, 0, 0, 2, 3⟩
  else none

/-- Model of `applyEvent(evt)`: the switch over the event tag (rendering calls are
presentation-only and not modelled; the `if (evt.player)` truthiness guards
become non-emptiness tests). -/
def applyEvent (st : GlobalState) (evt : Event) : GlobalState :=
  match evt with
  | .startingResources player resources =>
    if player ≠ "" then { st with players := addResources st.players player resources } else st
  | .got player resources =>
    if player ≠ "" then { st with players := addResources st.players player resources } else st
  | .diceRoll diceSum =>
    { st with dice := recordDice st.dice (Int.ofNat diceSum) }
  | .build player items =>
    if player ≠ "" then
      { st with players :=
          (items.foldl
            (fun ps item =>
              match buildCost item with
              | some c => (spendResources ps player c).1
              | none => ps)
            st.players) }
    else st

/-- The debug surface's `clear()` (single-file build version):
`clearPlayers(); clearDice(); clearSignatures()`. -/
def clearAll (st : GlobalState) : GlobalState :=
  { players := clearPlayers st.players
    dice := clearDice st.dice
    dedup := clearSignatures st.dedup }

/-! ### Helper lemmas -/

theorem setAdd_contains_self (l : List String) (s : String) :
    (setAdd l s).contains s = true := by
  simp [setAdd]
  split <;> simp_all

theorem setAdd_contains_mono {l : List String} {x : String} (y : String)
    (h : l.contains x = true) : (setAdd l y).contains x = true := by
  simp [setAdd] at *
  split <;> simp_all

theorem markContext_sigs_mono {st : DedupState} {x : String} (sig : String)
    (prevSig : Option String) (h : st.sigs.contains x = true) :
    (markContext st sig prevSig).sigs.contains x = true := by
  simp only [markContext]
  exact setAdd_contains_mono sig h

theorem markContext_pairs_mono {st : DedupState} {x : String} (sig : String)
    (prevSig : Option String) (h : st.pairs.contains x = true) :
    (markContext st sig prevSig).pairs.contains x = true := by
  cases prevSig with
  | none => exact h
  | some p =>
    by_cases hp : p = ""
    · simp only [markContext, if_pos hp]
      exact h
    · simp only [markContext, if_neg hp]
      exact setAdd_contains_mono _ h

theorem markContext_sigs_self (st : DedupState) (sig : String)
    (prevSig : Option String) :
    (markContext st sig prevSig).sigs.contains sig = true := by
  simp only [markContext]
  exact setAdd_contains_self st.sigs sig

/-- A state in which the `(sig, prevSig)` query is already condemned as a
duplicate: the signature is remembered and, when a non-empty previous
signature exists, so is the adjacency key. -/
def condemned (st : DedupState) (sig : String) (prevSig : Option String) : Prop :=
  st.sigs.contains sig = true ∧
  ∀ p, prevSig = some p → p ≠ "" → st.pairs.contains (p ++ ">>" ++ sig) = true

theorem isContextualDuplicate_of_condemned {st : DedupState} {sig : String}
    {prevSig : Option String} (h : condemned st sig prevSig) :
    isContextualDuplicate st sig prevSig = true := by
  obtain ⟨h1, h2⟩ := h
  unfold isContextualDuplicate
  rw [h1]
  cases prevSig with
  | none => rfl
  | some p =>
    by_cases hp : p = ""
    · simp [hp]
    · have h3 := h2 p rfl hp
      simp at h3
      simp [hp, h3]

theorem condemned_markContext_self (st : DedupState) (sig : String)
    (prevSig : Option String) : condemned (markContext st sig prevSig) sig prevSig := by
  refine ⟨markContext_sigs_self st sig prevSig, ?_⟩
  intro p hp hne
  subst hp
  simp only [markContext, if_neg hne]
  exact setAdd_contains_self st.pairs (p ++ ">>" ++ sig)

theorem condemned_markContext_mono {st : DedupState} {sig : String}
    {prevSig : Option String} (s' : String) (p' : Option String)
    (h : condemned st sig prevSig) : condemned (markContext st s' p') sig prevSig := by
  obtain ⟨h1, h2⟩ := h
  exact ⟨markContext_sigs_mono s' p' h1,
    fun p hp hne => markContext_pairs_mono s' p' (h2 p hp hne)⟩

theorem condemned_foldl {st : DedupState} {sig : String} {prevSig : Option String}
    (ops : List (String × Option String)) (h : condemned st sig prevSig) :
    condemned (ops.foldl (fun s o => markContext s o.1 o.2) st) sig prevSig := by
  induction ops generalizing st with
  | nil => exact h
  | cons o rest ih => exact ih (condemned_markContext_mono o.1 o.2 h)

/-! ### Claim theorems -/

/-- C1: the duplicate filter's decision function returns not-a-duplicate for
a never-seen signature regardless of adjacency; duplicate for a seen
signature with no previous signature; not-a-duplicate for a seen signature
whose adjacency key `prevSig>>sig` is unseen; and duplicate when both the
signature and the exact adjacency key were seen.  (Previous-candidate
signatures are line signatures, hence non-empty: `hp`.) -/
theorem c1_duplicate_decision (st : DedupState) (sig : String)
    (prevSig : Option String) (hp : ∀ p, prevSig = some p → p ≠ "") :
    (st.sigs.contains sig = false → isContextualDuplicate st sig prevSig = false) ∧
    (st.sigs.contains sig = true → prevSig = none →
      isContextualDuplicate st sig prevSig = true) ∧
    (∀ p, st.sigs.contains sig = true → prevSig = some p →
      st.pairs.contains (p ++ ">>" ++ sig) = false →
      isContextualDuplicate st sig prevSig = false) ∧
    (∀ p, st.sigs.contains sig = true → prevSig = some p →
      st.pairs.contains (p ++ ">>" ++ sig) = true →
      isContextualDuplicate st sig prevSig = true) := by
  refine ⟨?_, ?_, ?_, ?_⟩
  · intro h
    simp at h
    simp [isContextualDuplicate, h]
  · intro h hnone
    subst hnone
    simp at h
    simp [isContextualDuplicate, h]
  · intro p h hsome hpair
    subst hsome
    simp at h hpair
    simp [isContextualDuplicate, h, hp p rfl, hpair]
  · intro p h hsome hpair
    subst hsome
    simp at h hpair
    simp [isContextualDuplicate, h, hp p rfl, hpair]

theorem c1_duplicate_decision_witness :
    (∀ p, (some "q" : Option String) = some p → p ≠ "") ∧
    isContextualDuplicate ⟨["s"], []⟩ "s" (some "q") = false :=
  ⟨fun p h => by cases h; decide,
    (c1_duplicate_decision ⟨["s"], []⟩ "s" (some "q")
      (fun p h => by cases h; decide)).2.2.1 "q" (by decide) rfl (by decide)⟩

/-- C2: the filter is an at-most-once gate — once `markContext sig prevSig`
has run, every later query for the identical `(sig, prevSig)` pair reports a
duplicate, no matter which further candidates are marked in between. -/
theorem c2_at_most_once_gate (st : DedupState) (sig : String)
    (prevSig : Option String) (ops : List (String × Option String)) :
    isContextualDuplicate
      (ops.foldl (fun s o => markContext s o.1 o.2) (markContext st sig prevSig))
      sig prevSig = true :=
  isContextualDuplicate_of_condemned
    (condemned_foldl ops (condemned_markContext_self st sig prevSig))

/-- C5 counterexample: `"foo.bar.png"` has a dotted segment that is not a
hex run, yet `canonicalizeBasename` does not leave it unchanged — the
non-matching fallback collapses it to `"foo.png"`. -/
theorem c5_counterexample :
    canonicalizeBasename "foo.bar.png" = "foo.png" ∧
    canonicalizeBasename "foo.bar.png" ≠ "foo.bar.png" := by
  constructor <;> decide

theorem canonMatch_three_le {parts : List (List Char)}
    (h : canonMatch parts = true) : 3 ≤ parts.length := by
  match parts with
  | [] => simp [canonMatch] at h
  | [_] => simp [canonMatch] at h
  | [_, _] => simp [canonMatch, hashTail] at h
  | _ :: _ :: _ :: _ => simp [List.length_cons]

/-- C5 (amended): for every image basename, `canonicalizeBasename` strips
dotted runs of 6+ hex characters — whenever the hash-pattern regex matches
the dot-separated segments, the result is the first segment joined with the
last (`joinFirstLast`), dropping every hash run in between — and a name
with at most two dot-separated segments is returned unchanged when the
pattern does not match; but every non-matching name with more than two
dotted segments is likewise collapsed to its first and last segments
rather than returned unchanged.  Concrete instances:
`road_blue.33012eed15cae5.svg ↦ road_blue.svg`,
`plainname.png ↦ plainname.png`, `foo.bar.png ↦ foo.png`. -/
theorem c5_canonicalize (s : String) :
    canonicalizeBasename "road_blue.33012eed15cae5.svg" = "road_blue.svg" ∧
    canonicalizeBasename "plainname.png" = "plainname.png" ∧
    ((splitOnChar '.' s.data).length ≤ 2 → canonicalizeBasename s = s) ∧
    (canonMatch (splitOnChar '.' s.data) = true →
      canonicalizeBasename s = joinFirstLast (splitOnChar '.' s.data) s) ∧
    (canonMatch (splitOnChar '.' s.data) = false →
      2 < (splitOnChar '.' s.data).length →
      canonicalizeBasename s = joinFirstLast (splitOnChar '.' s.data) s) ∧
    canonicalizeBasename "foo.bar.png" = "foo.png" := by
  refine ⟨by decide, by decide, ?_, ?_, ?_, by decide⟩
  · intro h
    have hcm : canonMatch (splitOnChar '.' s.data) = false := by
      by_contra hc
      have := canonMatch_three_le (by simpa using hc)
      omega
    unfold canonicalizeBasename
    simp only [hcm, Bool.false_eq_true, if_false]
    have : ¬ 2 < (splitOnChar '.' s.data).length := by omega
    simp [this]
  · intro h
    unfold canonicalizeBasename
    simp [h]
  · intro h1 h2
    unfold canonicalizeBasename
    simp [h1, h2]

theorem c5_canonicalize_witness :
    ((splitOnChar '.' ("ab.cd" : String).data).length ≤ 2 ∧
      canonicalizeBasename "ab.cd" = "ab.cd") ∧
    (canonMatch (splitOnChar '.' ("a.abcdef.png" : String).data) = true ∧
      canonicalizeBasename "a.abcdef.png"
        = joinFirstLast (splitOnChar '.' ("a.abcdef.png" : String).data)
            "a.abcdef.png") ∧
    (canonMatch (splitOnChar '.' ("foo.bar.png" : String).data) = false ∧
      2 < (splitOnChar '.' ("foo.bar.png" : String).data).length ∧
      canonicalizeBasename "foo.bar.png"
        = joinFirstLast (splitOnChar '.' ("foo.bar.png" : String).data)
            "foo.bar.png") :=
  ⟨⟨by decide, (c5_canonicalize "ab.cd").2.2.1 (by decide)⟩,
    ⟨by decide, (c5_canonicalize "a.abcdef.png").2.2.2.1 (by decide)⟩,
    ⟨by decide, by decide,
      (c5_canonicalize "foo.bar.png").2.2.2.2.1 (by decide) (by decide)⟩⟩

/-- C8: `recordDice` with a sum outside `[2, 12]` leaves every bucket
unchanged; an in-range sum increments exactly its bucket; recording sum 7
five times from the all-zero histogram yields `counts 7 = 5` with every
other bucket still zero. -/
theorem c8_record_dice (c : DiceCounts) (sum : Int) :
    ((sum < 2 ∨ 12 < sum) → ∀ k, recordDice c sum k = c k) ∧
    (2 ≤ sum → sum ≤ 12 →
      recordDice c sum sum = c sum + 1 ∧ ∀ k, k ≠ sum → recordDice c sum k = c k) ∧
    ((recordDice (recordDice (recordDice (recordDice (recordDice initialDice 7) 7) 7) 7) 7) 7
        = 5 ∧
      ∀ k, k ≠ 7 →
        (recordDice (recordDice (recordDice (recordDice (recordDice initialDice 7) 7) 7) 7) 7) k
          = 0) := by
  refine ⟨?_, ?_, ?_, ?_⟩
  · intro h k
    unfold recordDice
    rw [if_neg (by omega)]
  · intro h1 h2
    constructor
    · unfold recordDice
      rw [if_pos ⟨h1, h2⟩]
      simp
    · intro k hk
      unfold recordDice
      rw [if_pos ⟨h1, h2⟩]
      simp [hk]
  · decide
  · intro k hk
    have h7 : ((2 : Int) ≤ 7 ∧ (7 : Int) ≤ 12) := by omega
    simp only [recordDice, if_pos h7, hk, if_false, initialDice]

theorem c8_record_dice_witness :
    ((13 : Int) < 2 ∨ (12 : Int) < 13) ∧ recordDice initialDice 13 5 = initialDice 5 :=
  ⟨Or.inr (by decide), (c8_record_dice initialDice 13).1 (Or.inr (by decide)) 5⟩

/-- C9: after the debug surface's `clear()`, the player snapshot is empty,
every dice bucket in `[2, 12]` is zero, the signature memory is empty, and
every signature is judged not-a-duplicate again. -/
theorem c9_clear_resets (st : GlobalState) :
    snapshot (clearAll st).players = [] ∧
    (∀ k : Int, 2 ≤ k → k ≤ 12 → (clearAll st).dice k = 0) ∧
    (clearAll st).dedup.sigs = [] ∧
    (clearAll st).dedup.pairs = [] ∧
    (∀ sig prevSig, isContextualDuplicate (clearAll st).dedup sig prevSig = false) := by
  refine ⟨rfl, ?_, rfl, rfl, ?_⟩
  · intro k h1 h2
    simp [clearAll, clearDice, h1, h2]
  · intro sig prevSig
    rfl

theorem c9_clear_resets_witness :
    (clearAll ⟨[("A", ⟨1, 0, 0, 0, 0, 1⟩)], recordDice initialDice 7, ⟨["s"], ["p>>s"]⟩⟩).dice 7
        = 0 ∧
    isContextualDuplicate
      (clearAll ⟨[("A", ⟨1, 0, 0, 0, 0, 1⟩)], recordDice initialDice 7, ⟨["s"], ["p>>s"]⟩⟩).dedup
      "s" (some "p") = false :=
  ⟨(c9_clear_resets _).2.1 7 (by decide) (by decide),
    (c9_clear_resets _).2.2.2.2 "s" (some "p")⟩

theorem setAdd_nodup {l : List String} (s : String) (h : l.Nodup) :
    (setAdd l s).Nodup := by
  unfold setAdd
  split
  · exact h
  · next hc =>
    simp at hc
    simp [List.nodup_append, h, hc]

theorem setAdd_nodup_ite {l : List String} (c : Prop) [Decidable c] (s : String)
    (h : l.Nodup) : (if c then setAdd l s else l).Nodup := by
  split
  · exact setAdd_nodup s h
  · exact h

theorem placedStep_nodup (items : List String) (src : String) (h : items.Nodup) :
    (placedStep items src).Nodup := by
  simp only [placedStep]
  split
  · exact h
  · exact setAdd_nodup_ite _ _ (setAdd_nodup_ite _ _ (setAdd_nodup_ite _ _ h))

theorem foldl_placedStep_nodup (imgs : List String) :
    ∀ items : List String, items.Nodup → (imgs.foldl placedStep items).Nodup := by
  induction imgs with
  | nil => intro items h; exact h
  | cons src rest ih =>
    intro items h
    exact ih (placedStep items src) (placedStep_nodup items src h)

/-- C10: `getPlacedItems` never lists an item kind twice for one node, no
matter how many images of that kind the node contains, so a single build
line triggers at most one cost spend per kind. -/
theorem c10_placed_items_at_most_once (imgs : List String) :
    (getPlacedItems imgs).Nodup ∧
    ∀ item, (getPlacedItems imgs).count item ≤ 1 := by
  have h := foldl_placedStep_nodup imgs [] List.nodup_nil
  exact ⟨h, fun item => List.nodup_iff_count_le_one.mp h item⟩

/-- C6: the line `"Carol got"` with images `card_lumber, card_lumber,
card_brick` parses to `got{player := "Carol", resources := wood 2, brick 1}`;
applying that event to the empty state leaves Carol's record at
`{2, 1, 0, 0, 0, total 3}`; and the got parser declines every line whose
node carries no resource icons. -/
theorem c6_got_scenario :
    parseGotEvent "Carol got" ["card_lumber", "card_lumber", "card_brick"]
      = some (Event.got "Carol" ⟨2, 1, 0, 0, 0⟩) ∧
    getPlayer (applyEvent initialState (Event.got "Carol" ⟨2, 1, 0, 0, 0⟩)).players "Carol"
      = ⟨2, 1, 0, 0, 0, 3⟩ ∧
    (∀ (t : String) (imgs : List String),
      countResourceImages imgs = zeroRes → parseGotEvent t imgs = none) := by
  refine ⟨by decide, by decide, ?_⟩
  intro t imgs h
  simp [parseGotEvent, h, anyResource, zeroRes]

theorem c6_got_scenario_witness :
    countResourceImages [] = zeroRes ∧ parseGotEvent "Zed got" [] = none :=
  ⟨rfl, c6_got_scenario.2.2 "Zed got" [] rfl⟩

/-- C7: `parseLine` runs the registry in registration order (dice_roll,
starting_resources, got, build) and returns the first parser's non-null
event; a throwing parser is skipped and evaluation continues with the next
parser; when every parser declines or throws, `parseLine` returns null. -/
theorem c7_parse_line_dispatch :
    (∀ (t : String) (imgs : List String),
      parseLine t imgs =
        ((parseDiceRollEvent t imgs).orElse fun _ =>
          (parseStartingResourcesEvent t imgs).orElse fun _ =>
            (parseGotEvent t imgs).orElse fun _ => parseBuildEvent t imgs)) ∧
    (∀ (ps1 ps2 : List ParserFn) (f : ParserFn) (t : String) (imgs : List String)
      (e : String), f t imgs = Except.error e →
      runParsers (ps1 ++ f :: ps2) t imgs = runParsers (ps1 ++ ps2) t imgs) ∧
    (∀ (ps : List ParserFn) (t : String) (imgs : List String),
      (∀ p ∈ ps, p t imgs = Except.ok none ∨ ∃ e, p t imgs = Except.error e) →
      runParsers ps t imgs = none) := by
  refine ⟨?_, ?_, ?_⟩
  · intro t imgs
    cases h1 : parseDiceRollEvent t imgs with
    | some e => simp [parseLine, eventParsers, runParsers, liftParser, h1, Option.orElse]
    | none =>
      cases h2 : parseStartingResourcesEvent t imgs with
      | some e => simp [parseLine, eventParsers, runParsers, liftParser, h1, h2, Option.orElse]
      | none =>
        cases h3 : parseGotEvent t imgs with
        | some e =>
          simp [parseLine, eventParsers, runParsers, liftParser, h1, h2, h3, Option.orElse]
        | none =>
          cases h4 : parseBuildEvent t imgs with
          | some e =>
            simp [parseLine, eventParsers, runParsers, liftParser, h1, h2, h3, h4,
              Option.orElse]
          | none =>
            simp [parseLine, eventParsers, runParsers, liftParser, h1, h2, h3, h4,
              Option.orElse]
  · intro ps1 ps2 f t imgs e hf
    induction ps1 with
    | nil => simp [runParsers, hf]
    | cons p rest ih =>
      cases hp : p t imgs with
      | error e2 => simp [List.cons_append, runParsers, hp, ih]
      | ok o => cases o <;> simp [List.cons_append, runParsers, hp, ih]
  · intro ps t imgs
    induction ps with
    | nil => intro _; rfl
    | cons p rest ih =>
      intro h
      rcases h p (by simp) with hp | ⟨e, hp⟩ <;>
        simp [runParsers, hp, ih (fun q hq => h q (by simp [hq]))]

theorem c7_parse_line_dispatch_witness :
    runParsers
        ([liftParser parseGotEvent] ++
          ((fun _ _ => Except.error "boom") : ParserFn) :: []) "x" [] =
      runParsers ([liftParser parseGotEvent] ++ []) "x" [] :=
  c7_parse_line_dispatch.2.1 [liftParser parseGotEvent] []
    ((fun _ _ => Except.error "boom") : ParserFn) "x" [] "boom" rfl

/-! ### Resource invariants (C3, C4) -/

/-- A resources/costs argument with only non-negative entries. -/
abbrev nonnegMap (m : ResMap) : Prop :=
  0 ≤ m.wood ∧ 0 ≤ m.brick ∧ 0 ≤ m.sheep ∧ 0 ≤ m.wheat ∧ 0 ≤ m.ore

/-- Well-formedness of a player record as maintained by the aggregator:
non-negative counts and `total = sum of counts`. -/
abbrev goodRec (p : PlayerRec) : Prop :=
  0 ≤ p.wood ∧ 0 ≤ p.brick ∧ 0 ≤ p.sheep ∧ 0 ≤ p.wheat ∧ 0 ≤ p.ore ∧
  p.total = p.wood + p.brick + p.sheep + p.wheat + p.ore

theorem goodRec_zero : goodRec zeroRec := by decide

theorem removedAmt_eq {hv want : Int} (h1 : 0 ≤ hv) (h2 : 0 ≤ want) :
    removedAmt hv want = min hv want := by
  unfold removedAmt
  split_ifs <;> omega

theorem addRes_eq (p : PlayerRec) (r : ResMap) :
    addRes p r =
      ⟨p.wood + r.wood, p.brick + r.brick, p.sheep + r.sheep, p.wheat + r.wheat,
        p.ore + r.ore, p.total + (r.wood + r.brick + r.sheep + r.wheat + r.ore)⟩ := by
  unfold addRes
  split_ifs <;> simp_all [PlayerRec.mk.injEq] <;> omega

theorem goodRec_addRes {p : PlayerRec} {m : ResMap} (hp : goodRec p)
    (hm : nonnegMap m) : goodRec (addRes p m) := by
  obtain ⟨h1, h2, h3, h4, h5, h6⟩ := hp
  obtain ⟨m1, m2, m3, m4, m5⟩ := hm
  rw [addRes_eq]
  refine ⟨?_, ?_, ?_, ?_, ?_, ?_⟩ <;> dsimp only <;> omega

theorem spendRes_eq (p : PlayerRec) (c : ResMap) (hp : goodRec p)
    (hc : nonnegMap c) :
    spendRes p c =
      (⟨p.wood - min p.wood c.wood, p.brick - min p.brick c.brick,
          p.sheep - min p.sheep c.sheep, p.wheat - min p.wheat c.wheat,
          p.ore - min p.ore c.ore,
          p.total -
            (min p.wood c.wood + min p.brick c.brick + min p.sheep c.sheep +
              min p.wheat c.wheat + min p.ore c.ore)⟩,
        ⟨min p.wood c.wood, min p.brick c.brick, min p.sheep c.sheep,
          min p.wheat c.wheat, min p.ore c.ore⟩) := by
  obtain ⟨h1, h2, h3, h4, h5, h6⟩ := hp
  obtain ⟨m1, m2, m3, m4, m5⟩ := hc
  simp only [spendRes]
  rw [removedAmt_eq h1 m1, removedAmt_eq h2 m2, removedAmt_eq h3 m3,
    removedAmt_eq h4 m4, removedAmt_eq h5 m5]
  have htot :
      (if (min p.wood c.wood + min p.brick c.brick + min p.sheep c.sheep +
            min p.wheat c.wheat + min p.ore c.ore) ≠ 0 then
          max 0
            (p.total -
              (min p.wood c.wood + min p.brick c.brick + min p.sheep c.sheep +
                min p.wheat c.wheat + min p.ore c.ore))
        else p.total)
        = p.total -
            (min p.wood c.wood + min p.brick c.brick + min p.sheep c.sheep +
              min p.wheat c.wheat + min p.ore c.ore) := by
    by_cases hS :
        (min p.wood c.wood + min p.brick c.brick + min p.sheep c.sheep +
          min p.wheat c.wheat + min p.ore c.ore) = 0
    · rw [if_neg (by omega)]
      omega
    · rw [if_pos hS]
      omega
  rw [htot]

theorem goodRec_spendRes {p : PlayerRec} {c : ResMap} (hp : goodRec p)
    (hc : nonnegMap c) : goodRec (spendRes p c).1 := by
  have he := spendRes_eq p c hp hc
  obtain ⟨h1, h2, h3, h4, h5, h6⟩ := hp
  obtain ⟨m1, m2, m3, m4, m5⟩ := hc
  rw [he]
  refine ⟨?_, ?_, ?_, ?_, ?_, ?_⟩ <;> dsimp only <;> omega

/-- C4: on a well-formed record and a non-negative cost map,
`spendResources` removes `min(have, want)` per kind, never drives a count
negative, zeroes any kind with `want > have`, decrements `total` by exactly
the sum of the amounts actually removed, and returns that map of removed
amounts. -/
theorem c4_spend_clamp (p : PlayerRec) (c : ResMap) (hp : goodRec p)
    (hc : nonnegMap c) :
    ((spendRes p c).1.wood = p.wood - min p.wood c.wood ∧
      (spendRes p c).1.brick = p.brick - min p.brick c.brick ∧
      (spendRes p c).1.sheep = p.sheep - min p.sheep c.sheep ∧
      (spendRes p c).1.wheat = p.wheat - min p.wheat c.wheat ∧
      (spendRes p c).1.ore = p.ore - min p.ore c.ore) ∧
    (0 ≤ (spendRes p c).1.wood ∧ 0 ≤ (spendRes p c).1.brick ∧
      0 ≤ (spendRes p c).1.sheep ∧ 0 ≤ (spendRes p c).1.wheat ∧
      0 ≤ (spendRes p c).1.ore) ∧
    ((p.wood < c.wood → (spendRes p c).1.wood = 0) ∧
      (p.brick < c.brick → (spendRes p c).1.brick = 0) ∧
      (p.sheep < c.sheep → (spendRes p c).1.sheep = 0) ∧
      (p.wheat < c.wheat → (spendRes p c).1.wheat = 0) ∧
      (p.ore < c.ore → (spendRes p c).1.ore = 0)) ∧
    (spendRes p c).1.total =
      p.total -
        (min p.wood c.wood + min p.brick c.brick + min p.sheep c.sheep +
          min p.wheat c.wheat + min p.ore c.ore) ∧
    (spendRes p c).2 =
      ⟨min p.wood c.wood, min p.brick c.brick, min p.sheep c.sheep,
        min p.wheat c.wheat, min p.ore c.ore⟩ := by
  have he := spendRes_eq p c hp hc
  obtain ⟨h1, h2, h3, h4, h5, h6⟩ := hp
  obtain ⟨m1, m2, m3, m4, m5⟩ := hc
  rw [he]
  refine ⟨⟨rfl, rfl, rfl, rfl, rfl⟩, ?_, ?_, rfl, rfl⟩ <;> dsimp only <;> omega

theorem c4_spend_clamp_witness :
    (spendRes ⟨2, 1, 0, 0, 0, 3⟩ ⟨1, 1, 0, 0, 0⟩).1.total =
      (3 : Int) -
        (min (2 : Int) 1 + min (1 : Int) 1 + min (0 : Int) 0 + min (0 : Int) 0 +
          min (0 : Int) 0) :=
  (c4_spend_clamp ⟨2, 1, 0, 0, 0, 3⟩ ⟨1, 1, 0, 0, 0⟩ (by decide)
      (by decide)).2.2.2.1

/-- One `addResources`/`spendResources` call against the player map. -/
inductive PlayerOp where
  | add (name : String) (m : ResMap)
  | spend (name : String) (m : ResMap)
  deriving Repr, DecidableEq

/-- The resources/costs map carried by an operation. -/
def opMap : PlayerOp → ResMap
  | .add _ m => m
  | .spend _ m => m

/-- Apply one operation to the player map. -/
def applyOp (ps : PlayersMap) : PlayerOp → PlayersMap
  | .add name m => addResources ps name m
  | .spend name m => (spendResources ps name m).1

theorem getPlayer_good {ps : PlayersMap} (h : ∀ e ∈ ps, goodRec e.2)
    (name : String) : goodRec (getPlayer ps name) := by
  induction ps with
  | nil => exact goodRec_zero
  | cons hd tl ih =>
    obtain ⟨k, v⟩ := hd
    unfold getPlayer
    split
    · exact h (k, v) (by simp)
    · exact ih (fun e he => h e (by simp [he]))

theorem setPlayer_mem {ps : PlayersMap} {n : String} {r : PlayerRec}
    {e : String × PlayerRec} (he : e ∈ setPlayer ps n r) :
    e ∈ ps ∨ e = (n, r) := by
  induction ps with
  | nil =>
    unfold setPlayer at he
    exact Or.inr (by simpa using he)
  | cons hd tl ih =>
    obtain ⟨k, v⟩ := hd
    unfold setPlayer at he
    split at he
    · rcases List.mem_cons.mp he with h1 | h1
      · exact Or.inr h1
      · exact Or.inl (List.mem_cons_of_mem _ h1)
    · rcases List.mem_cons.mp he with h1 | h1
      · exact Or.inl (by simp [h1])
      · rcases ih h1 with h2 | h2
        · exact Or.inl (List.mem_cons_of_mem _ h2)
        · exact Or.inr h2

theorem applyOp_good {ps : PlayersMap} (h : ∀ e ∈ ps, goodRec e.2)
    (op : PlayerOp) (hm : nonnegMap (opMap op)) :
    ∀ e ∈ applyOp ps op, goodRec e.2 := by
  intro e he
  cases op with
  | add name m =>
    rcases setPlayer_mem he with h1 | h1
    · exact h e h1
    · rw [h1]
      exact goodRec_addRes (getPlayer_good h name) hm
  | spend name m =>
    rcases setPlayer_mem he with h1 | h1
    · exact h e h1
    · rw [h1]
      exact goodRec_spendRes (getPlayer_good h name) hm

theorem foldl_applyOp_good (ops : List PlayerOp) :
    ∀ ps : PlayersMap, (∀ e ∈ ps, goodRec e.2) →
      (∀ op ∈ ops, nonnegMap (opMap op)) →
      ∀ e ∈ ops.foldl applyOp ps, goodRec e.2 := by
  induction ops with
  | nil => intro ps h _ e he; exact h e he
  | cons op rest ih =>
    intro ps h hm e he
    exact ih (applyOp ps op) (applyOp_good h op (hm op (by simp)))
      (fun q hq => hm q (by simp [hq])) e he

/-- C3: starting from the empty player map (so each record starts from the
all-zero record created on first reference), any sequence of
`addResources`/`spendResources` operations with non-negative resource maps
leaves every player record satisfying
`total = wood + brick + sheep + wheat + ore`. -/
theorem c3_total_invariant (ops : List PlayerOp)
    (hm : ∀ op ∈ ops, nonnegMap (opMap op)) (name : String) (r : PlayerRec)
    (hr : (name, r) ∈ ops.foldl applyOp []) :
    r.total = r.wood + r.brick + r.sheep + r.wheat + r.ore :=
  (foldl_applyOp_good ops [] (by intro e he; simp at he) hm (name, r) hr).2.2.2.2.2

theorem c3_total_invariant_witness :
    (⟨1, 0, 0, 0, 0, 1⟩ : PlayerRec).total =
      (⟨1, 0, 0, 0, 0, 1⟩ : PlayerRec).wood + (⟨1, 0, 0, 0, 0, 1⟩ : PlayerRec).brick +
        (⟨1, 0, 0, 0, 0, 1⟩ : PlayerRec).sheep + (⟨1, 0, 0, 0, 0, 1⟩ : PlayerRec).wheat +
        (⟨1, 0, 0, 0, 0, 1⟩ : PlayerRec).ore :=
  c3_total_invariant [PlayerOp.add "A" ⟨1, 0, 0, 0, 0⟩]
    (by intro op hop; simp at hop; subst hop; decide) "A" ⟨1, 0, 0, 0, 0, 1⟩
    (by decide)

end Explorer
